import Mathlib

/-!
Shallow embedding of the behavioral learning and ranking core of the
Lenskart contextual-search repository.

Numeric model: Python floats are modelled as exact rationals (ℚ); the
division, min/max and clamping in the source are all exact over the
decimal constants involved, so ℚ is the idealized numeric semantics.

Sources embedded below:
- `app/models/event.py` (`BehaviorScore.calculate_score`, `BehaviorScore.update_rates`,
  `Event`, `EventType`)
- `app/services/learning_service.py` (`process_event`, `record_impression(s)`,
  `recalculate_all_scores`, `_get_or_create_score`)
- `app/services/ranking_service.py` (`rank_results`, `apply_boost`)
- `app/services/search_service.py` (`SearchService.search`)
- `app/workers/event_processor.py` (`EventProcessor` queue/worker/stop)
-/

namespace LKSearch

/-- `BehaviorScore` record (`app/models/event.py`, class `BehaviorScore`).
Raw counters are integers, `total_dwell_time` and the derived fields are
floats (modelled as ℚ).  Column defaults are all zero. -/
structure BehaviorScore where
  impression_count : ℕ
  click_count : ℕ
  cart_count : ℕ
  purchase_count : ℕ
  total_dwell_time : ℚ
  click_rate : ℚ
  cart_rate : ℚ
  conversion_rate : ℚ
  avg_dwell_time : ℚ
  bounce_rate : ℚ
  behavior_score : ℚ
deriving DecidableEq, Repr

/-- The freshly created record (`BehaviorScore(product_id=...)` with all
column defaults, as produced by `_get_or_create_score`). -/
def BehaviorScore.default : BehaviorScore :=
  ⟨0, 0, 0, 0, 0, 0, 0, 0, 0, 0, 0⟩

/-- `BehaviorScore.calculate_score` (`app/models/event.py` lines 82-105).
`if self.avg_dwell_time` is Python truthiness: zero is falsy. -/
def BehaviorScore.calculate_score (s : BehaviorScore) : ℚ :=
  let normalized_dwell : ℚ :=
    if s.avg_dwell_time = 0 then 0 else min (s.avg_dwell_time / 60) 1
  let score : ℚ :=
    (s.click_rate * 0.3 + s.cart_rate * 0.3 + s.conversion_rate * 0.3 +
      normalized_dwell * 0.1) - s.bounce_rate * 0.2
  max 0 (min 1 score)

/-- First guarded assignment of `update_rates`
(`if self.impression_count > 0: self.click_rate = ...`). -/
def updClickRate (s : BehaviorScore) : BehaviorScore :=
  if 0 < s.impression_count then
    { s with click_rate := (s.click_count : ℚ) / (s.impression_count : ℚ) }
  else s

/-- Second guarded assignment block of `update_rates`
(`if self.click_count > 0: ...` sets `cart_rate`, `conversion_rate`,
`avg_dwell_time`). -/
def updClickDerived (s : BehaviorScore) : BehaviorScore :=
  if 0 < s.click_count then
    { s with
        cart_rate := (s.cart_count : ℚ) / (s.click_count : ℚ),
        conversion_rate := (s.purchase_count : ℚ) / (s.click_count : ℚ),
        avg_dwell_time := s.total_dwell_time / (s.click_count : ℚ) }
  else s

/-- `BehaviorScore.update_rates` (`app/models/event.py` lines 107-117):
each division is guarded by a positivity test on its denominator and the
previous value is kept when the guard fails; finally `behavior_score`
is recomputed via `calculate_score`. -/
def BehaviorScore.update_rates (s : BehaviorScore) : BehaviorScore :=
  let s2 := updClickDerived (updClickRate s)
  { s2 with behavior_score := s2.calculate_score }

/-- `EventType` (`app/models/event.py`): the closed set of event kinds. -/
inductive EventType where
  | search
  | click
  | add_to_cart
  | purchase
  | dwell_time
deriving DecidableEq, Repr

/-- `Event` (`app/models/event.py`, class `Event`), restricted to the fields
that the learning path reads (`user_id`, `session_id`, `query`, `position`
and the timestamps are never read by `process_event` or the
reconciliation pass). -/
structure Event where
  event_type : EventType
  product_id : Option String
  dwell_time_seconds : Option ℚ
deriving DecidableEq, Repr

/-- The event-type dispatch of `LearningService.process_event`
(`app/services/learning_service.py` lines 77-93), acting on one record.
`if event.dwell_time_seconds` is Python truthiness: `None` and `0.0`
are both falsy.  A `search` event changes no counter. -/
def applyEvent (s : BehaviorScore) (e : Event) : BehaviorScore :=
  match e.event_type with
  | .click => { s with click_count := s.click_count + 1 }
  | .add_to_cart => { s with cart_count := s.cart_count + 1 }
  | .purchase => { s with purchase_count := s.purchase_count + 1 }
  | .dwell_time =>
      match e.dwell_time_seconds with
      | some d =>
          if d = 0 then s
          else { s with total_dwell_time := s.total_dwell_time + d }
      | none => s
  | .search => s

/-- The per-record effect of `LearningService.process_event` on the score
it touches: dispatch, then `update_rates` (lines 77-96). -/
def processEventScore (s : BehaviorScore) (e : Event) : BehaviorScore :=
  (applyEvent s e).update_rates

/-- Per-record effect of `LearningService.record_impression`
(lines 51-56): increment `impression_count`, then `update_rates`. -/
def recordImpressionScore (s : BehaviorScore) : BehaviorScore :=
  ({ s with impression_count := s.impression_count + 1 }).update_rates

/-- One call in a sequence of `process_event` / `update_rates`
invocations against a single record. -/
inductive ScoreOp where
  | procEvent (e : Event)
  | updRates
deriving DecidableEq, Repr

def applyScoreOp (s : BehaviorScore) : ScoreOp → BehaviorScore
  | .procEvent e => processEventScore s e
  | .updRates => s.update_rates

/-- Run a sequence of `process_event` / `update_rates` calls. -/
def runScoreOps (s : BehaviorScore) (ops : List ScoreOp) : BehaviorScore :=
  ops.foldl applyScoreOp s

/-! ### Store level: `LearningService` against the `behavior_scores` table -/

/-- The `behavior_scores` table: one row per product id. -/
abbrev Store := List (String × BehaviorScore)

/-- `db.query(BehaviorScore).filter(product_id == pid).first()`. -/
def getScore (st : Store) (pid : String) : Option BehaviorScore :=
  (st.find? (fun p => p.1 == pid)).map Prod.snd

/-- `_get_or_create_score` followed by an in-place mutation `f` of the
returned row (`app/services/learning_service.py` lines 227-238). -/
def upsertScore (st : Store) (pid : String) (f : BehaviorScore → BehaviorScore) : Store :=
  match getScore st pid with
  | some _ => st.map (fun p => if p.1 == pid then (p.1, f p.2) else p)
  | none => st ++ [(pid, f BehaviorScore.default)]

/-- `LearningService.process_event` (lines 66-97) at the store level.
`if not event.product_id: return` is Python truthiness: both `None`
and the empty string are falsy and cause an early return. -/
def processEvent (st : Store) (e : Event) : Store :=
  match e.product_id with
  | none => st
  | some pid =>
      if pid = "" then st
      else upsertScore st pid (fun s => (applyEvent s e).update_rates)

/-- `LearningService.record_impressions_batch` (lines 58-64). -/
def recordImpressionsBatch (st : Store) (ids : List String) : Store :=
  ids.foldl (fun st pid => upsertScore st pid recordImpressionScore) st

/-! ### Reconciliation: `recalculate_all_scores` per product -/

/-- The SQL filter `Event.dwell_time_seconds < 5.0` (BOUNCE_THRESHOLD):
a SQL comparison against NULL is not satisfied, so dwell events with no
recorded seconds are not counted as bounces. -/
def isLowDwell (e : Event) : Bool :=
  match e.dwell_time_seconds with
  | some d => d < 5
  | none => false

/-- The events of one product with one event type
(`filter(Event.product_id == pid, Event.event_type == t)`). -/
def eventsFor (events : List Event) (pid : String) (t : EventType) : List Event :=
  events.filter (fun e => e.product_id == some pid && e.event_type == t)

/-- The per-product body of `LearningService.recalculate_all_scores`
(lines 107-153): every counter is recomputed from the raw event log;
the dwell-time sum ignores NULL seconds (SQL `SUM`, with `or 0.0` for
the empty case); `bounce_rate` is assigned only when the product has at
least one dwell-time event; `update_rates` runs last. -/
def recalcScore (events : List Event) (pid : String) (s : BehaviorScore) : BehaviorScore :=
  let dwellEvents := eventsFor events pid .dwell_time
  let s1 := { s with
    impression_count := (eventsFor events pid .search).length,
    click_count := (eventsFor events pid .click).length,
    cart_count := (eventsFor events pid .add_to_cart).length,
    purchase_count := (eventsFor events pid .purchase).length,
    total_dwell_time := (dwellEvents.filterMap Event.dwell_time_seconds).sum }
  let s2 := if 0 < dwellEvents.length then
      { s1 with bounce_rate :=
          ((dwellEvents.filter isLowDwell).length : ℚ) / (dwellEvents.length : ℚ) }
    else s1
  s2.update_rates

/-! ### Ranking: `RankingService` -/

/-- A ranked entry `(product_id, semantic_score, behavior_score, final_score)`. -/
abbrev Ranked := String × ℚ × ℚ × ℚ

def finalOf (r : Ranked) : ℚ := r.2.2.2

/-- The comparison realized by Python's stable
`results.sort(key=lambda x: x[3], reverse=True)`: descending by final
score.  Python's sort is stable, so its output is exactly
`List.mergeSort` under this comparison. -/
def descBy (a b : Ranked) : Bool := decide (finalOf b ≤ finalOf a)

/-- `RankingService.rank_results` (lines 26-62), with the configured
weights (`settings.semantic_weight = 0.6`, `settings.behavior_weight =
0.4` by default) and the batch behavior-score lookup passed as
parameters; `behavior_scores.get(product_id, 0.0)` defaults to 0 for a
product with no `BehaviorScore` row. -/
def scoredList (sw bw : ℚ) (behavior : String → Option ℚ)
    (product_ids : List String) (semantic_scores : List ℚ) : List Ranked :=
  (product_ids.zip semantic_scores).map (fun q =>
    (q.1, q.2, (behavior q.1).getD 0, q.2 * sw + (behavior q.1).getD 0 * bw))

/-- The final sort of `rank_results`
(`results.sort(key=lambda x: x[3], reverse=True)`). -/
def rank_results (sw bw : ℚ) (behavior : String → Option ℚ)
    (product_ids : List String) (semantic_scores : List ℚ) : List Ranked :=
  (scoredList sw bw behavior product_ids semantic_scores).mergeSort descBy

/-- The per-entry boost of `RankingService.apply_boost`
(`if product_id in boost_product_ids: final *= boost_factor`). -/
def boostEntry (boost_product_ids : List String) (boost_factor : ℚ) (r : Ranked) : Ranked :=
  if r.1 ∈ boost_product_ids then (r.1, r.2.1, r.2.2.1, r.2.2.2 * boost_factor) else r

/-- `RankingService.apply_boost` (lines 64-84): multiply the final
score of each entry whose product id is boosted, then re-sort (stably)
by final score descending. -/
def apply_boost (results : List Ranked) (boost_product_ids : List String)
    (boost_factor : ℚ) : List Ranked :=
  (results.map (boostEntry boost_product_ids boost_factor)).mergeSort descBy

/-- Rank position of the entry of product `p` in a result list. -/
def idxOfId (l : List Ranked) (p : String) : ℕ :=
  l.findIdx (fun r => r.1 == p)

/-- The order claimed for `rank_results` output: descending by final
score with ties broken by product id ascending. -/
def claimedTieOrder (l : List Ranked) : Prop :=
  l.Pairwise (fun a b => finalOf b < finalOf a ∨ (finalOf a = finalOf b ∧ a.1 < b.1))

/-! ### Search orchestration: `SearchService.search` -/

/-- Observable outcome of one `SearchService.search` call
(`app/services/search_service.py` lines 77-151): `requested_k` is the
`top_k` argument passed to `vector_store.search`; `impressions` is the
id list passed to `record_impressions_batch` (step 7); `returned` is
the list of ranked entries appearing in the response (step 8 skips
entries whose product id is missing from the product table). -/
structure SearchOutcome where
  requested_k : ℕ
  returned : List Ranked
  impressions : List String
deriving DecidableEq, Repr

/-- `SearchService.search`, with the external collaborators (vector
store, product table, behavior lookup) and weights as parameters.  The
vector store is asked for `query.top_k * 2` candidates; an empty
candidate list short-circuits to an empty response with no impressions;
otherwise the candidates are re-ranked, truncated to `top_k`,
impressions are recorded for the truncated ids, and the response keeps
the truncated entries whose product exists. -/
def searchModel (sw bw : ℚ) (vectorSearch : ℕ → List (String × ℚ))
    (behavior : String → Option ℚ) (productExists : String → Bool)
    (top_k : ℕ) : SearchOutcome :=
  let cands := vectorSearch (top_k * 2)
  if cands.isEmpty then
    { requested_k := top_k * 2, returned := [], impressions := [] }
  else
    let ranked := rank_results sw bw behavior (cands.map Prod.fst) (cands.map Prod.snd)
    let truncated := ranked.take top_k
    let result_product_ids := truncated.map Prod.fst
    { requested_k := top_k * 2,
      returned := truncated.filter (fun r => productExists r.1),
      impressions := result_product_ids }

/-! ### `EventProcessor`: queue, worker and shutdown -/

/-- Control position of the worker task `_process_events`
(`app/workers/event_processor.py` lines 57-79). -/
inductive WorkerPhase where
  | checkCond    -- about to evaluate `while self.is_running`
  | awaitGet     -- suspended in `asyncio.wait_for(self.queue.get(), timeout=1.0)`
  | handling     -- processing a dequeued event (ends with task_done, count += 1)
  | exited       -- the loop has terminated
deriving DecidableEq, Repr

/-- Progress of a `stop()` call (lines 38-51). -/
inductive StopPhase where
  | notCalled
  | joining      -- `is_running` already cleared, suspended in `await self.queue.join()`
  | returned     -- `queue.join()` returned (unfinished-task count hit zero)
deriving DecidableEq, Repr

/-- Abstract `EventProcessor` state: queue contents, the unfinished-task
counter of `asyncio.Queue.join` (incremented by `put`, decremented by
`task_done`), `processed_count`, `is_running`, worker phase, `stop()`
phase. -/
structure ProcState where
  pending : List ℕ
  unfinished : ℕ
  processed : ℕ
  is_running : Bool
  worker : WorkerPhase
  stopPh : StopPhase
deriving DecidableEq, Repr

/-- Interleaving semantics of `EventProcessor`: each constructor is one
atomic segment of the source between suspension points.
- `push`: `push_event` enqueues (`queue.put` also bumps the
  unfinished-task counter).
- `stopBegin`: `stop()` sets `is_running = False` (line 40) and then
  suspends in `await self.queue.join()` (line 44).
- `joinDone`: `queue.join()` returns once the unfinished-task counter
  is zero; `stop()` then cancels the worker task.
- `loopExit` / `loopEnter`: the worker evaluates `while self.is_running`.
- `getTimeout`: `wait_for` times out on an empty queue and the loop
  continues.
- `getItem`: the worker dequeues the head event.
- `finishItem`: the worker finishes handling, calls `task_done` and
  increments `processed_count`. -/
inductive ProcStep : ProcState → ProcState → Prop where
  | push (s : ProcState) (e : ℕ) :
      ProcStep s { s with pending := s.pending ++ [e], unfinished := s.unfinished + 1 }
  | stopBegin (s : ProcState) (h : s.stopPh = .notCalled) :
      ProcStep s { s with is_running := false, stopPh := .joining }
  | joinDone (s : ProcState) (h : s.stopPh = .joining) (h0 : s.unfinished = 0) :
      ProcStep s { s with stopPh := .returned, worker := .exited }
  | loopExit (s : ProcState) (hw : s.worker = .checkCond) (hr : s.is_running = false) :
      ProcStep s { s with worker := .exited }
  | loopEnter (s : ProcState) (hw : s.worker = .checkCond) (hr : s.is_running = true) :
      ProcStep s { s with worker := .awaitGet }
  | getTimeout (s : ProcState) (hw : s.worker = .awaitGet) (hq : s.pending = []) :
      ProcStep s { s with worker := .checkCond }
  | getItem (s : ProcState) (e : ℕ) (rest : List ℕ) (hw : s.worker = .awaitGet)
      (hq : s.pending = e :: rest) :
      ProcStep s { s with pending := rest, worker := .handling }
  | finishItem (s : ProcState) (hw : s.worker = .handling) :
      ProcStep s { s with processed := s.processed + 1,
                          unfinished := s.unfinished - 1, worker := .checkCond }

/-- The processor right after `start()` with an empty queue: running,
worker about to test the loop condition, nothing processed. -/
def procInit : ProcState :=
  { pending := [], unfinished := 0, processed := 0,
    is_running := true, worker := .checkCond, stopPh := .notCalled }

/-- The state reached in the C2 scenario: two events were pushed, the
worker had passed the loop-condition check and was awaiting the queue
when `stop()` cleared `is_running`; the worker then drained one event,
saw `is_running == False` at the next check and exited, leaving one
event queued and the unfinished-task count at 1. -/
def procStuck : ProcState :=
  { pending := [2], unfinished := 1, processed := 1,
    is_running := false, worker := .exited, stopPh := .joining }

/-- Invariant maintained by `process_event` / `update_rates` sequences
from the default record: impressions are only ever recorded by the
search path (not by `process_event`), so `impression_count` stays 0 and
`click_rate` is never reassigned; `bounce_rate` is only assigned by the
reconciliation pass; `behavior_score` is clamped. -/
def baseInv (s : BehaviorScore) : Prop :=
  s.impression_count = 0 ∧ s.click_rate = 0 ∧ s.bounce_rate = 0 ∧
  0 ≤ s.behavior_score ∧ s.behavior_score ≤ 1

/-! ## Basic lemmas about `update_rates` -/

@[simp] lemma updClickRate_impression (s : BehaviorScore) :
    (updClickRate s).impression_count = s.impression_count := by
  unfold updClickRate; split_ifs <;> rfl

@[simp] lemma updClickRate_click_count (s : BehaviorScore) :
    (updClickRate s).click_count = s.click_count := by
  unfold updClickRate; split_ifs <;> rfl

@[simp] lemma updClickRate_bounce (s : BehaviorScore) :
    (updClickRate s).bounce_rate = s.bounce_rate := by
  unfold updClickRate; split_ifs <;> rfl

@[simp] lemma updClickDerived_bounce (s : BehaviorScore) :
    (updClickDerived s).bounce_rate = s.bounce_rate := by
  unfold updClickDerived; split_ifs <;> rfl

lemma update_rates_bounce (s : BehaviorScore) :
    (s.update_rates).bounce_rate = s.bounce_rate := by
  unfold BehaviorScore.update_rates; simp

lemma update_rates_impression (s : BehaviorScore) :
    (s.update_rates).impression_count = s.impression_count := by
  unfold BehaviorScore.update_rates updClickDerived; split_ifs <;> simp

lemma update_rates_click_rate_of_imp_zero (s : BehaviorScore)
    (h : s.impression_count = 0) :
    (s.update_rates).click_rate = s.click_rate := by
  unfold BehaviorScore.update_rates updClickDerived updClickRate
  split_ifs <;> simp_all

lemma calculate_score_nonneg (s : BehaviorScore) : 0 ≤ s.calculate_score := by
  unfold BehaviorScore.calculate_score
  exact le_max_left _ _

lemma calculate_score_le_one (s : BehaviorScore) : s.calculate_score ≤ 1 := by
  unfold BehaviorScore.calculate_score
  exact max_le (by norm_num) (min_le_left _ _)

lemma update_rates_behavior_mem (s : BehaviorScore) :
    0 ≤ (s.update_rates).behavior_score ∧ (s.update_rates).behavior_score ≤ 1 := by
  unfold BehaviorScore.update_rates
  exact ⟨calculate_score_nonneg _, calculate_score_le_one _⟩

lemma applyEvent_frame (s : BehaviorScore) (e : Event) :
    (applyEvent s e).impression_count = s.impression_count ∧
    (applyEvent s e).click_rate = s.click_rate ∧
    (applyEvent s e).bounce_rate = s.bounce_rate := by
  cases he : e.event_type <;> simp [applyEvent, he]
  rcases e.dwell_time_seconds with _ | d <;> simp
  split_ifs <;> simp

lemma baseInv_applyScoreOp (s : BehaviorScore) (op : ScoreOp)
    (h : baseInv s) : baseInv (applyScoreOp s op) := by
  obtain ⟨h1, h2, h3, _, _⟩ := h
  cases op with
  | updRates =>
    refine ⟨?_, ?_, ?_, (update_rates_behavior_mem s).1, (update_rates_behavior_mem s).2⟩
    · show (s.update_rates).impression_count = 0
      rw [update_rates_impression, h1]
    · show (s.update_rates).click_rate = 0
      rw [update_rates_click_rate_of_imp_zero s h1, h2]
    · show (s.update_rates).bounce_rate = 0
      rw [update_rates_bounce, h3]
  | procEvent e =>
    obtain ⟨f1, f2, f3⟩ := applyEvent_frame s e
    refine ⟨?_, ?_, ?_, (update_rates_behavior_mem _).1, (update_rates_behavior_mem _).2⟩
    · show ((applyEvent s e).update_rates).impression_count = 0
      rw [update_rates_impression, f1, h1]
    · show ((applyEvent s e).update_rates).click_rate = 0
      rw [update_rates_click_rate_of_imp_zero _ (f1.trans h1), f2, h2]
    · show ((applyEvent s e).update_rates).bounce_rate = 0
      rw [update_rates_bounce, f3, h3]

lemma baseInv_runScoreOps (ops : List ScoreOp) :
    ∀ s : BehaviorScore, baseInv s → baseInv (runScoreOps s ops) := by
  induction ops with
  | nil => exact fun _ h => h
  | cons op rest ih =>
    intro s h
    exact ih _ (baseInv_applyScoreOp s op h)

/-! ## C1 -/

/-- C1, counterexample: after the `process_event` sequence add_to_cart,
add_to_cart, click starting from the default record, `cart_rate` is 2,
outside [0,1] — the derived rates are not clamped by `update_rates`. -/
theorem cart_rate_gt_one_cex :
    (runScoreOps BehaviorScore.default
      [.procEvent ⟨.add_to_cart, some "p", none⟩,
       .procEvent ⟨.add_to_cart, some "p", none⟩,
       .procEvent ⟨.click, some "p", none⟩]).cart_rate = 2 ∧
    ¬ (runScoreOps BehaviorScore.default
      [.procEvent ⟨.add_to_cart, some "p", none⟩,
       .procEvent ⟨.add_to_cart, some "p", none⟩,
       .procEvent ⟨.click, some "p", none⟩]).cart_rate ≤ 1 := by
  norm_num [runScoreOps, applyScoreOp, processEventScore, applyEvent,
    BehaviorScore.update_rates, updClickRate, updClickDerived,
    BehaviorScore.calculate_score, BehaviorScore.default]

/-- C1 (amended): after any sequence of `process_event` / `update_rates`
calls from the default record, `behavior_score` lies in [0,1] (it is
clamped), and `click_rate` and `bounce_rate` lie in [0,1] (they remain
at their default 0 on this path); `cart_rate`, `conversion_rate` and
`avg_dwell_time` are not bounded by 1. -/
theorem rates_after_ops_bounded (ops : List ScoreOp) :
    0 ≤ (runScoreOps BehaviorScore.default ops).behavior_score ∧
    (runScoreOps BehaviorScore.default ops).behavior_score ≤ 1 ∧
    0 ≤ (runScoreOps BehaviorScore.default ops).click_rate ∧
    (runScoreOps BehaviorScore.default ops).click_rate ≤ 1 ∧
    0 ≤ (runScoreOps BehaviorScore.default ops).bounce_rate ∧
    (runScoreOps BehaviorScore.default ops).bounce_rate ≤ 1 := by
  obtain ⟨h1, h2, h3, h4, h5⟩ :=
    baseInv_runScoreOps ops BehaviorScore.default
      ⟨rfl, rfl, rfl, le_refl 0, by norm_num [BehaviorScore.default]⟩
  exact ⟨h4, h5, by rw [h2], by rw [h2]; norm_num, by rw [h3], by rw [h3]; norm_num⟩

/-! ## C4 -/

/-- C4: the spec's worked scenario.  With impression_count=100,
click_count=20, cart_count=5, purchase_count=2, total_dwell_time=300
and bounce_rate=0.1, `update_rates` yields click_rate=0.2,
cart_rate=0.25, conversion_rate=0.1, avg_dwell_time=15 and
behavior_score=0.17. -/
theorem scenario_behavior_rates :
    (({ BehaviorScore.default with
        impression_count := 100, click_count := 20, cart_count := 5,
        purchase_count := 2, total_dwell_time := 300, bounce_rate := 0.1 } : BehaviorScore).update_rates).click_rate = 0.2 ∧
    (({ BehaviorScore.default with
        impression_count := 100, click_count := 20, cart_count := 5,
        purchase_count := 2, total_dwell_time := 300, bounce_rate := 0.1 } : BehaviorScore).update_rates).cart_rate = 0.25 ∧
    (({ BehaviorScore.default with
        impression_count := 100, click_count := 20, cart_count := 5,
        purchase_count := 2, total_dwell_time := 300, bounce_rate := 0.1 } : BehaviorScore).update_rates).conversion_rate = 0.1 ∧
    (({ BehaviorScore.default with
        impression_count := 100, click_count := 20, cart_count := 5,
        purchase_count := 2, total_dwell_time := 300, bounce_rate := 0.1 } : BehaviorScore).update_rates).avg_dwell_time = 15 ∧
    (({ BehaviorScore.default with
        impression_count := 100, click_count := 20, cart_count := 5,
        purchase_count := 2, total_dwell_time := 300, bounce_rate := 0.1 } : BehaviorScore).update_rates).behavior_score = 0.17 := by
  norm_num [BehaviorScore.update_rates, updClickRate, updClickDerived,
    BehaviorScore.calculate_score, BehaviorScore.default]

/-! ## C5 -/

/-- C5, counterexample: two records with identical raw counters (all
zero) but different prior `click_rate` produce different `click_rate`
and different `behavior_score` after `update_rates` — when a division
guard fails, the prior derived value is kept, so the derived fields are
not a function of the raw counters alone. -/
theorem update_rates_hidden_state_cex :
    BehaviorScore.default.impression_count =
      ({ BehaviorScore.default with click_rate := 0.5 } : BehaviorScore).impression_count ∧
    BehaviorScore.default.click_count =
      ({ BehaviorScore.default with click_rate := 0.5 } : BehaviorScore).click_count ∧
    BehaviorScore.default.cart_count =
      ({ BehaviorScore.default with click_rate := 0.5 } : BehaviorScore).cart_count ∧
    BehaviorScore.default.purchase_count =
      ({ BehaviorScore.default with click_rate := 0.5 } : BehaviorScore).purchase_count ∧
    BehaviorScore.default.total_dwell_time =
      ({ BehaviorScore.default with click_rate := 0.5 } : BehaviorScore).total_dwell_time ∧
    (BehaviorScore.default.update_rates).click_rate ≠
      (({ BehaviorScore.default with click_rate := 0.5 } : BehaviorScore).update_rates).click_rate ∧
    (BehaviorScore.default.update_rates).behavior_score ≠
      (({ BehaviorScore.default with click_rate := 0.5 } : BehaviorScore).update_rates).behavior_score := by
  norm_num [BehaviorScore.update_rates, updClickRate, updClickDerived,
    BehaviorScore.calculate_score, BehaviorScore.default]

/-- C5 (amended): for records with identical raw counters and identical
`bounce_rate`, when both division guards pass (positive
`impression_count` and `click_count`), `update_rates` produces
identical derived rates and `behavior_score` — the recomputed fields
depend only on the raw counters and `bounce_rate`. -/
theorem update_rates_pure_in_counters (a b : BehaviorScore)
    (himp : a.impression_count = b.impression_count)
    (hclk : a.click_count = b.click_count)
    (hcart : a.cart_count = b.cart_count)
    (hpur : a.purchase_count = b.purchase_count)
    (hdw : a.total_dwell_time = b.total_dwell_time)
    (hbr : a.bounce_rate = b.bounce_rate)
    (h1 : 0 < a.impression_count) (h2 : 0 < a.click_count) :
    (a.update_rates).click_rate = (b.update_rates).click_rate ∧
    (a.update_rates).cart_rate = (b.update_rates).cart_rate ∧
    (a.update_rates).conversion_rate = (b.update_rates).conversion_rate ∧
    (a.update_rates).avg_dwell_time = (b.update_rates).avg_dwell_time ∧
    (a.update_rates).behavior_score = (b.update_rates).behavior_score := by
  simp [BehaviorScore.update_rates, updClickRate, updClickDerived,
    BehaviorScore.calculate_score, himp, hclk, hcart, hpur, hdw, hbr,
    h1, himp ▸ h1, hclk ▸ h2, h2]

/-- Witness for C5's amended theorem at a concrete pair of records. -/
theorem update_rates_pure_in_counters_witness :
    (({ BehaviorScore.default with
        impression_count := 4, click_count := 2 } :
        BehaviorScore).update_rates).behavior_score =
    (({ BehaviorScore.default with
        impression_count := 4, click_count := 2, cart_rate := 0.9 } : BehaviorScore).update_rates).behavior_score :=
  (update_rates_pure_in_counters
    { BehaviorScore.default with
        impression_count := 4, click_count := 2 }
    { BehaviorScore.default with
      impression_count := 4, click_count := 2, cart_rate := 0.9 }
    rfl rfl rfl rfl rfl rfl (by norm_num [BehaviorScore.default])
    (by norm_num [BehaviorScore.default])).2.2.2.2

/-! ## C9 -/

/-- C9: `update_rates` is idempotent — with the raw counters unchanged,
running it twice equals running it once (the whole record coincides, in
particular all derived rates and `behavior_score`). -/
theorem update_rates_idempotent (s : BehaviorScore) :
    s.update_rates.update_rates = s.update_rates := by
  rcases Nat.eq_zero_or_pos s.impression_count with h1 | h1 <;>
    rcases Nat.eq_zero_or_pos s.click_count with h2 | h2 <;>
      simp [BehaviorScore.update_rates, updClickRate, updClickDerived,
        BehaviorScore.calculate_score, h1, h2, Nat.pos_iff_ne_zero]

/-! ## C10 -/

/-- C10: an event whose `product_id` is absent is ignored by
`process_event` — the store is returned unchanged: no record is
created and no field of any existing record is modified, whatever the
event type. -/
theorem process_event_no_product_frame (st : Store) (e : Event)
    (h : e.product_id = none) : processEvent st e = st := by
  unfold processEvent
  rw [h]

/-- Witness for C10 at a concrete store and event. -/
theorem process_event_no_product_frame_witness :
    processEvent [("a", BehaviorScore.default)] ⟨.purchase, none, none⟩ =
      [("a", BehaviorScore.default)] :=
  process_event_no_product_frame [("a", BehaviorScore.default)]
    ⟨.purchase, none, none⟩ rfl

/-! ## C7 -/

/-- C7: the incremental path (`process_event`, and likewise
`record_impression` and a bare `update_rates`) never changes
`bounce_rate`; only the reconciliation pass assigns it, and when the
product has at least one dwell-time event it sets it to the number of
dwell-time events with dwell below the 5.0-second threshold divided by
the number of all dwell-time events of that product. -/
theorem bounce_rate_paths :
    (∀ (s : BehaviorScore) (e : Event),
      (processEventScore s e).bounce_rate = s.bounce_rate) ∧
    (∀ s : BehaviorScore, (recordImpressionScore s).bounce_rate = s.bounce_rate) ∧
    (∀ s : BehaviorScore, (s.update_rates).bounce_rate = s.bounce_rate) ∧
    (∀ (events : List Event) (pid : String) (s : BehaviorScore),
      0 < (eventsFor events pid .dwell_time).length →
      (recalcScore events pid s).bounce_rate =
        (((eventsFor events pid .dwell_time).filter isLowDwell).length : ℚ) /
          ((eventsFor events pid .dwell_time).length : ℚ)) := by
  refine ⟨?_, ?_, update_rates_bounce, ?_⟩
  · intro s e
    rw [processEventScore, update_rates_bounce]
    exact (applyEvent_frame s e).2.2
  · intro s
    rw [recordImpressionScore, update_rates_bounce]
  · intro events pid s h
    simp only [recalcScore, h, if_pos, update_rates_bounce]

/-- Witness for C7 at a concrete event log: one bounced dwell event out
of two dwell events gives bounce_rate 1/2 after reconciliation; an
incremental click leaves bounce_rate untouched. -/
theorem bounce_rate_paths_witness :
    (recalcScore
        [⟨.dwell_time, some "a", some 2⟩, ⟨.dwell_time, some "a", some 30⟩]
        "a" BehaviorScore.default).bounce_rate = (1 : ℚ) / 2 := by
  have h := bounce_rate_paths.2.2.2
    [⟨.dwell_time, some "a", some 2⟩, ⟨.dwell_time, some "a", some 30⟩]
    "a" BehaviorScore.default
    (by norm_num [eventsFor])
  rw [h]
  norm_num [eventsFor, isLowDwell]

/-! ## Sorting facts shared by the ranking claims -/

lemma descBy_trans : ∀ a b c : Ranked, descBy a b → descBy b c → descBy a c := by
  intro a b c hab hbc
  simp only [descBy, decide_eq_true_eq] at *
  exact hbc.trans hab

lemma descBy_total : ∀ a b : Ranked, descBy a b || descBy b a := by
  intro a b
  simp only [descBy, Bool.or_eq_true, decide_eq_true_eq]
  exact le_total _ _

lemma boostEntry_fst (ids : List String) (f : ℚ) (r : Ranked) :
    (boostEntry ids f r).1 = r.1 := by
  unfold boostEntry; split <;> rfl

lemma finalOf_boostEntry (ids : List String) (f : ℚ) (r : Ranked) :
    finalOf (boostEntry ids f r) =
      if r.1 ∈ ids then finalOf r * f else finalOf r := by
  unfold boostEntry finalOf; split <;> rfl

lemma idxOfId_map_boost (ids : List String) (f : ℚ) (l : List Ranked) (p : String) :
    idxOfId (l.map (boostEntry ids f)) p = idxOfId l p := by
  induction l with
  | nil => rfl
  | cons a t ih =>
    rw [List.map_cons, idxOfId, idxOfId, List.findIdx_cons, List.findIdx_cons,
      boostEntry_fst]
    cases h : a.1 == p
    · simp only [cond_false]
      rw [show (t.map (boostEntry ids f)).findIdx (fun r => r.1 == p) =
            t.findIdx (fun r => r.1 == p) from ih]
    · simp only [cond_true]

/-- In a list with pairwise-distinct product ids, `findIdx` locates the
unique entry of a product: dropping to its index exposes it as head. -/
lemma drop_findIdx_eq {m : List Ranked} {x : Ranked} {p : String}
    (hx : x ∈ m) (hp : x.1 = p) (hnd : (m.map Prod.fst).Nodup) :
    idxOfId m p < m.length ∧
      m.drop (idxOfId m p) = x :: m.drop (idxOfId m p + 1) := by
  have hlt : idxOfId m p < m.length :=
    List.findIdx_lt_length_of_exists ⟨x, hx, by simp [hp]⟩
  refine ⟨hlt, ?_⟩
  have hget : (m.get ⟨idxOfId m p, hlt⟩).1 = p := by
    have h := List.findIdx_get (p := fun r : Ranked => r.1 == p) (w := hlt)
    simpa [idxOfId] using h
  have hxeq : m.get ⟨idxOfId m p, hlt⟩ = x := by
    have hmem : m.get ⟨idxOfId m p, hlt⟩ ∈ m := List.get_mem m _ _
    exact List.inj_on_of_nodup_map hnd hmem hx (by rw [hget, hp])
  rw [List.drop_eq_get_cons hlt, hxeq]

/-! ## C3 -/

/-- C3, counterexample: with the default weights, two candidates "b"
then "a" with equal semantic scores and no behavior records tie on
final score; the stable sort keeps the input order, so "b" stays ahead
of "a" — ties are not broken by product id ascending. -/
theorem rank_results_tiebreak_cex :
    rank_results 0.6 0.4 (fun _ => none) ["b", "a"] [1/2, 1/2] =
      [("b", 1/2, 0, 0.3), ("a", 1/2, 0, 0.3)] ∧
    ¬ claimedTieOrder (rank_results 0.6 0.4 (fun _ => none) ["b", "a"] [1/2, 1/2]) := by
  have hsc : scoredList 0.6 0.4 (fun _ => none) ["b", "a"] [(1:ℚ)/2, 1/2] =
      [("b", 1/2, 0, 0.3), ("a", 1/2, 0, 0.3)] := by
    norm_num [scoredList]
  have heq : rank_results 0.6 0.4 (fun _ => none) ["b", "a"] [(1:ℚ)/2, 1/2] =
      [("b", 1/2, 0, 0.3), ("a", 1/2, 0, 0.3)] := by
    rw [rank_results, hsc]
    rw [List.mergeSort]
    norm_num [List.mergeSort, List.merge, descBy, finalOf]
  refine ⟨heq, ?_⟩
  rw [heq, claimedTieOrder]
  simp only [List.pairwise_cons, List.mem_singleton, List.Pairwise.nil, and_true,
    forall_eq, finalOf]
  intro h
  rcases h.1 with h1 | ⟨h2, h3⟩
  · exact absurd h1 (by norm_num)
  · refine absurd h3 ?_
    rw [String.lt_iff_toList_lt]
    rw [show "b".toList = ['b'] from rfl, show "a".toList = ['a'] from rfl]
    decide

/-- C3 (amended): `rank_results` scores every candidate as
`semantic * semanticWeight + behavior * behaviorWeight` with behavior
defaulting to 0, and returns a permutation of the scored entries sorted
descending by final score; the sort is stable, so ties are broken by
input position (the semantic candidate order), not by product id
ascending. -/
theorem rank_results_spec (sw bw : ℚ) (behavior : String → Option ℚ)
    (ids : List String) (sems : List ℚ) :
    (rank_results sw bw behavior ids sems).Perm (scoredList sw bw behavior ids sems) ∧
    (rank_results sw bw behavior ids sems).Pairwise
      (fun a b => finalOf b ≤ finalOf a) ∧
    (∀ x ∈ rank_results sw bw behavior ids sems,
      x.2.2.1 = (behavior x.1).getD 0 ∧ finalOf x = x.2.1 * sw + x.2.2.1 * bw) ∧
    (∀ x y : Ranked, List.Sublist [x, y] (scoredList sw bw behavior ids sems) →
      finalOf y ≤ finalOf x →
      List.Sublist [x, y] (rank_results sw bw behavior ids sems)) := by
  refine ⟨List.mergeSort_perm _ _, ?_, ?_, ?_⟩
  · exact (List.sorted_mergeSort descBy_trans descBy_total _).imp
      (fun hab => by simpa [descBy] using hab)
  · intro x hx
    rw [rank_results, List.mem_mergeSort, scoredList, List.mem_map] at hx
    obtain ⟨q, _, rfl⟩ := hx
    exact ⟨rfl, rfl⟩
  · intro x y hsub hyx
    exact List.pair_sublist_mergeSort descBy_trans descBy_total
      (by simpa [descBy] using hyx) hsub

/-- Witness for C3's amended theorem: at a concrete input the stability
clause applies and keeps the higher-scored entry ahead. -/
theorem rank_results_spec_witness :
    List.Sublist [(("b" : String), (1 : ℚ), (0 : ℚ), (0.6 : ℚ)), ("a", 1/2, 0, 0.3)]
      (rank_results 0.6 0.4 (fun _ => none) ["b", "a"] [1, 1/2]) := by
  refine (rank_results_spec 0.6 0.4 (fun _ => none) ["b", "a"] [1, 1/2]).2.2.2 _ _ ?_ ?_
  · have hsc : scoredList 0.6 0.4 (fun _ => none) ["b", "a"] [(1:ℚ), 1/2] =
        [("b", 1, 0, 0.6), ("a", 1/2, 0, 0.3)] := by
      norm_num [scoredList]
    rw [hsc]
  · norm_num [finalOf]

/-! ## C8 -/

/-- C8: `apply_boost` with factor > 1 on a ranked list (sorted
descending, nonnegative final scores, pairwise-distinct product ids)
never moves a boosted product to a strictly worse rank position. -/
theorem apply_boost_no_demotion (results : List Ranked) (ids : List String) (f : ℚ)
    (hf : 1 < f)
    (hnd : (results.map Prod.fst).Nodup)
    (hsorted : results.Pairwise (fun a b => finalOf b ≤ finalOf a))
    (hpos : ∀ r ∈ results, 0 ≤ finalOf r)
    (p : String) (hpb : p ∈ ids) (hpresent : p ∈ results.map Prod.fst) :
    idxOfId (apply_boost results ids f) p ≤ idxOfId results p := by
  classical
  set g := boostEntry ids f with hg
  set l' := results.map g with hl'
  have hmapfst : l'.map Prod.fst = results.map Prod.fst := by
    rw [hl', List.map_map]
    exact List.map_congr_left (fun r _ => boostEntry_fst ids f r)
  have hnd' : (l'.map Prod.fst).Nodup := by rw [hmapfst]; exact hnd
  have hndl' : l'.Nodup := List.Nodup.of_map _ hnd'
  set out := l'.mergeSort descBy with hout
  have hperm : out.Perm l' := List.mergeSort_perm l' descBy
  have hndout : out.Nodup := hperm.nodup_iff.mpr hndl'
  have hndoutfst : (out.map Prod.fst).Nodup := ((hperm.map Prod.fst).nodup_iff).mpr hnd'
  have hsortout : out.Pairwise (fun a b => finalOf b ≤ finalOf a) :=
    (List.sorted_mergeSort descBy_trans descBy_total l').imp
      (fun hab => by simpa [descBy] using hab)
  obtain ⟨x0, hx0mem, hx0pid⟩ := List.mem_map.mp hpresent
  set i := idxOfId results p with hi
  obtain ⟨hilt, hidrop⟩ := drop_findIdx_eq hx0mem hx0pid hnd
  set x := g x0 with hx
  have hxmem' : x ∈ l' := List.mem_map_of_mem g hx0mem
  have hxpid : x.1 = p := by rw [hx, hg, boostEntry_fst]; exact hx0pid
  have hieq : idxOfId l' p = i := by rw [hl', hg, idxOfId_map_boost, hi]
  have hidrop' : l'.drop i = x :: l'.drop (i + 1) := by
    rw [hl', ← List.map_drop, ← List.map_drop, hidrop, List.map_cons]
  have hxout : x ∈ out := hperm.mem_iff.mpr hxmem'
  set i' := idxOfId out p with hi'
  obtain ⟨hi'lt, hdropout⟩ := drop_findIdx_eq hxout hxpid hndoutfst
  have houtdecomp : out.take i' ++ out.drop i' = out := List.take_append_drop i' out
  have hnd2 : (out.take i' ++ out.drop i').Nodup := by rw [houtdecomp]; exact hndout
  have hdisj : (out.take i').Disjoint (out.drop i') := (List.nodup_append.mp hnd2).2.2
  have hx0pos : 0 ≤ finalOf x0 := hpos x0 hx0mem
  have hxval : finalOf x = finalOf x0 * f := by
    rw [hx, hg, finalOf_boostEntry, if_pos (hx0pid ▸ hpb)]
  have hx0lex : finalOf x0 ≤ finalOf x := by
    rw [hxval]
    exact le_mul_of_one_le_right hx0pos hf.le
  have hafter0 : ∀ z ∈ results.drop (i + 1), finalOf z ≤ finalOf x0 := by
    have hs : (results.drop i).Pairwise (fun a b => finalOf b ≤ finalOf a) :=
      hsorted.sublist (List.drop_sublist i results)
    rw [hidrop] at hs
    exact fun z hz => (List.pairwise_cons.mp hs).1 z hz
  have hafter : ∀ z ∈ l'.drop (i + 1), finalOf z ≤ finalOf x := by
    intro z hz
    rw [hl', ← List.map_drop] at hz
    obtain ⟨z0, hz0, rfl⟩ := List.mem_map.mp hz
    have h0 := hafter0 z0 hz0
    rw [hg, finalOf_boostEntry]
    split_ifs with hzin
    · rw [hxval]
      exact mul_le_mul_of_nonneg_right h0 (le_trans zero_le_one hf.le)
    · exact le_trans h0 hx0lex
  have hsubset : ∀ y ∈ out.take i', y ∈ l'.take i := by
    intro y hy
    have hyout : y ∈ out := List.take_subset i' out hy
    have hyl' : y ∈ l' := hperm.subset hyout
    have hxdrop : x ∈ out.drop i' := by rw [hdropout]; exact List.mem_cons_self _ _
    have hyx : y ≠ x := fun h => hdisj hy (h ▸ hxdrop)
    have hrel : finalOf x ≤ finalOf y := by
      have hsplit := List.pairwise_append.mp (by rw [houtdecomp]; exact hsortout)
      exact hsplit.2.2 y hy x hxdrop
    by_contra hyT
    have hyD : y ∈ l'.drop i := by
      have hmem2 : y ∈ l'.take i ++ l'.drop i := by
        rw [List.take_append_drop i l']; exact hyl'
      rcases List.mem_append.mp hmem2 with h | h
      · exact absurd h hyT
      · exact h
    rw [hidrop'] at hyD
    rcases List.mem_cons.mp hyD with h | h
    · exact hyx h
    have hyfin : finalOf y ≤ finalOf x := hafter y h
    have heqfin : finalOf y = finalOf x := le_antisymm hyfin hrel
    have hpairl' : List.Sublist [x, y] l' := by
      have h1 : List.Sublist [x, y] (l'.drop i) := by
        rw [hidrop']
        exact List.Sublist.cons₂ x (List.singleton_sublist.mpr h)
      exact h1.trans (List.drop_sublist i l')
    have hpairout : List.Sublist [x, y] out :=
      List.pair_sublist_mergeSort descBy_trans descBy_total
        (by simp [descBy, heqfin]) hpairl'
    have hpairout2 : List.Sublist [x, y] (out.take i' ++ x :: out.drop (i' + 1)) := by
      rw [← hdropout, houtdecomp]
      exact hpairout
    obtain ⟨l₁, l₂, heq2, hsub1, hsub2⟩ := List.sublist_append_iff.mp hpairout2
    cases l₁ with
    | nil =>
      rw [List.nil_append] at heq2
      subst heq2
      have hyD2 : y ∈ out.drop (i' + 1) := by
        cases hsub2 with
        | cons _ hsk => exact hsk.subset (by simp)
        | cons₂ _ hsk => exact hsk.subset (by simp)
      exact hdisj hy (by rw [hdropout]; exact List.mem_cons_of_mem x hyD2)
    | cons a l₁t =>
      rw [List.cons_append] at heq2
      injection heq2 with hax htl
      subst hax
      have hxtake : x ∈ out.take i' := hsub1.subset (List.mem_cons_self _ _)
      exact hdisj hxtake hxdrop
  have htakesub : (out.take i') ⊆ l'.take i := fun y hy => hsubset y hy
  have hndtake : (out.take i').Nodup :=
    List.Nodup.sublist (List.take_sublist i' out) hndout
  have hsp : List.Subperm (out.take i') (l'.take i) :=
    List.subperm_of_subset hndtake htakesub
  have hlen1 : (out.take i').length = i' := by
    rw [List.length_take]
    exact min_eq_left hi'lt.le
  have hlen2 : (l'.take i).length ≤ i := by
    rw [List.length_take]
    exact min_le_left _ _
  have hfin : i' ≤ i := by
    rw [← hlen1]
    exact le_trans hsp.length_le hlen2
  have hab : apply_boost results ids f = out := rfl
  rw [hab, ← hi']
  exact hfin

/-- Witness for C8 at a concrete ranked list: boosting "b" by factor 2
does not worsen its position. -/
theorem apply_boost_no_demotion_witness :
    idxOfId (apply_boost [("a", 0, 0, 1), ("b", 0, 0, 1/2)] ["b"] 2) "b" ≤
      idxOfId [(("a" : String), (0 : ℚ), (0 : ℚ), (1 : ℚ)), ("b", 0, 0, 1/2)] "b" :=
  apply_boost_no_demotion [("a", 0, 0, 1), ("b", 0, 0, 1/2)] ["b"] 2
    (by norm_num)
    (by simp)
    (by norm_num [finalOf])
    (by intro r hr; fin_cases hr <;> norm_num [finalOf])
    "b" (by simp) (by simp)

/-! ## C6 -/

/-- C6, counterexample: when the single over-fetched candidate "a" is
missing from the product table, the search response is empty but an
impression is still recorded for "a" — impressions are recorded for the
truncated ranked ids, not for the ids returned in the response. -/
theorem search_impressions_cex :
    (searchModel 0.6 0.4 (fun _ => [("a", 1)]) (fun _ => none)
      (fun _ => false) 1).impressions = ["a"] ∧
    (searchModel 0.6 0.4 (fun _ => [("a", 1)]) (fun _ => none)
      (fun _ => false) 1).returned = [] := by
  constructor <;>
    simp [searchModel, rank_results, scoredList, List.mergeSort]

/-- C6 (amended): `search` asks the vector store for `2 * top_k`
candidates, records one impression for each id of the re-ranked list
truncated to `top_k` after ranking (once per id when the candidate ids
are distinct), and returns exactly the truncated entries whose product
exists in the product table — so the impression ids coincide with the
returned ids exactly when every truncated id exists. -/
theorem search_contract (sw bw : ℚ) (vs : ℕ → List (String × ℚ))
    (behavior : String → Option ℚ) (pe : String → Bool) (k : ℕ) :
    (searchModel sw bw vs behavior pe k).requested_k = 2 * k ∧
    ((vs (k * 2)).isEmpty = false →
      (searchModel sw bw vs behavior pe k).impressions =
        ((rank_results sw bw behavior ((vs (k * 2)).map Prod.fst)
            ((vs (k * 2)).map Prod.snd)).take k).map Prod.fst ∧
      (searchModel sw bw vs behavior pe k).returned =
        ((rank_results sw bw behavior ((vs (k * 2)).map Prod.fst)
            ((vs (k * 2)).map Prod.snd)).take k).filter (fun r => pe r.1)) ∧
    ((∀ pid ∈ (searchModel sw bw vs behavior pe k).impressions, pe pid = true) →
      ((searchModel sw bw vs behavior pe k).returned).map Prod.fst =
        (searchModel sw bw vs behavior pe k).impressions) ∧
    (((vs (k * 2)).map Prod.fst).Nodup →
      (searchModel sw bw vs behavior pe k).impressions.Nodup) := by
  have hnd_rank : ((vs (k * 2)).map Prod.fst).Nodup →
      ((rank_results sw bw behavior ((vs (k * 2)).map Prod.fst)
        ((vs (k * 2)).map Prod.snd)).map Prod.fst).Nodup := by
    intro hndc
    have hperm := List.mergeSort_perm
      (scoredList sw bw behavior ((vs (k * 2)).map Prod.fst)
        ((vs (k * 2)).map Prod.snd)) descBy
    refine ((hperm.map Prod.fst).nodup_iff).mpr ?_
    have hmfst : (scoredList sw bw behavior ((vs (k * 2)).map Prod.fst)
        ((vs (k * 2)).map Prod.snd)).map Prod.fst =
          ((vs (k * 2)).map Prod.fst) := by
      rw [scoredList, List.map_map]
      have h := List.map_fst_zip ((vs (k * 2)).map Prod.fst)
        ((vs (k * 2)).map Prod.snd) (by simp)
      simpa using h
    rw [hmfst]
    exact hndc
  refine ⟨?_, ?_, ?_, ?_⟩
  · simp only [searchModel]
    split <;> simp [Nat.mul_comm]
  · intro hne
    simp only [searchModel]
    rw [if_neg (by rw [hne]; exact Bool.false_ne_true)]
    exact ⟨rfl, rfl⟩
  · intro hall
    simp only [searchModel] at hall ⊢
    by_cases hemp : (vs (k * 2)).isEmpty
    · rw [if_pos hemp] at hall ⊢
      rfl
    · rw [if_neg hemp] at hall ⊢
      simp only at hall ⊢
      rw [List.filter_eq_self.mpr (fun r hr => hall r.1 (List.mem_map_of_mem _ hr))]
  · intro hndc
    simp only [searchModel]
    by_cases hemp : (vs (k * 2)).isEmpty
    · rw [if_pos hemp]
      exact List.nodup_nil
    · rw [if_neg hemp]
      simp only
      rw [List.map_take]
      exact List.Nodup.sublist (List.take_sublist _ _) (hnd_rank hndc)

/-- Witness for C6's amended theorem: when every truncated id exists in
the product table, the returned ids equal the impression ids. -/
theorem search_contract_witness :
    (searchModel 0.6 0.4 (fun _ => [("a", 1)]) (fun _ => none)
        (fun _ => true) 1).returned.map Prod.fst =
      (searchModel 0.6 0.4 (fun _ => [("a", 1)]) (fun _ => none)
        (fun _ => true) 1).impressions :=
  (search_contract 0.6 0.4 (fun _ => [("a", 1)]) (fun _ => none)
    (fun _ => true) 1).2.2.1 (fun _ _ => rfl)

/-! ## C2 -/

/-- C2: because `stop()` clears `is_running` before awaiting
`queue.join()`, a legal interleaving exists in which, with N = 2 events
pushed while the worker runs, the worker drains one event, observes
`is_running == False` at the next loop check and exits; from the
resulting state `stop()` can never return (the unfinished-task counter
never reaches zero again), the processed count stays 1 ≠ 2 and the queue
depth stays ≥ 1 ≠ 0 — contradicting the drain-to-empty contract. -/
theorem stop_abandons_queue :
    Relation.ReflTransGen ProcStep procInit procStuck ∧
    ∀ s : ProcState, Relation.ReflTransGen ProcStep procStuck s →
      s.stopPh = .joining ∧ s.worker = .exited ∧ s.processed = 1 ∧
      1 ≤ s.unfinished ∧ 1 ≤ s.pending.length := by
  constructor
  · exact .head (ProcStep.push procInit 1)
      (.head (ProcStep.push _ 2)
        (.head (ProcStep.loopEnter _ rfl rfl)
          (.head (ProcStep.stopBegin _ rfl)
            (.head (ProcStep.getItem _ 1 [2] rfl rfl)
              (.head (ProcStep.finishItem _ rfl)
                (.head (ProcStep.loopExit _ rfl rfl) .refl))))))
  · intro s h
    induction h with
    | refl => exact ⟨rfl, rfl, rfl, le_refl 1, le_refl 1⟩
    | tail hab step ih =>
      obtain ⟨ih1, ih2, ih3, ih4, ih5⟩ := ih
      cases step with
      | push e =>
        refine ⟨ih1, ih2, ih3, le_trans ih4 (Nat.le_succ _), ?_⟩
        simp only [List.length_append, List.length_cons, List.length_nil]
        exact Nat.le_succ_of_le ih5
      | stopBegin hsp => simp [ih1] at hsp
      | joinDone hsp h0 => omega
      | loopExit hw hr => simp [ih2] at hw
      | loopEnter hw hr => simp [ih2] at hw
      | getTimeout hw hq => simp [ih2] at hw
      | getItem e rest hw hq => simp [ih2] at hw
      | finishItem hw => simp [ih2] at hw

/-- Witness for C2's theorem at the stuck state itself. -/
theorem stop_abandons_queue_witness :
    procStuck.stopPh = .joining ∧ procStuck.worker = .exited ∧
      procStuck.processed = 1 ∧ 1 ≤ procStuck.unfinished ∧
      1 ≤ procStuck.pending.length :=
  stop_abandons_queue.2 procStuck Relation.ReflTransGen.refl

end LKSearch
